import Mathlib

/-!
Shallow embedding of the portfolio-api cache engine (server.js) and proofs of
the specification claims.  Pure data transformations (folder extraction, date
normalization, media classification, date sort, filters) are translated as
Lean functions; network fetches and probes are parameters (the JS functions
`fetch`, `getImageDimensions`, `getVideoDimensions` are external I/O:
modelling them as function arguments records their result per URL); the
module-level mutable variables (`projectsCache`, `lastCacheUpdate`,
`isUpdatingCache`) and the written files become an explicit `ServerState`
record threaded through the stateful operations.  JavaScript `Date` parsing
(`new Date(s)` / `toISOString`) is kept abstract as a parameter
`parse : String -> Option Int` (millisecond timestamp, `none` = Invalid Date)
and `iso : Int -> String` (the `YYYY-MM-DD` rendering).
-/

namespace Portfolio

/-! ### Data model -/

inductive MediaType where
  | image
  | video
  | notes
deriving DecidableEq, Repr

structure Dims where
  width : Int
  height : Int
deriving DecidableEq, Repr

/-- One entry of a project's `media` array.  Image/video items carry
`dimensions`, notes items carry `content` (absent fields are `none`). -/
structure MediaItem where
  url : String
  type : MediaType
  filename : String
  dimensions : Option Dims
  content : Option String
deriving DecidableEq, Repr

/-- The `primaryImage` object built in `fetchProjectsFromRemote`. -/
structure ImageRef where
  url : String
  filename : String
  dimensions : Option Dims
deriving DecidableEq, Repr

structure Credit where
  name : Option String
deriving DecidableEq, Repr

/-- A normalized project record (`projectWithId` in the source). -/
structure Project where
  id : String
  date : Option String
  tags : Option (List String)
  credits : Option (List Credit)
  media : List MediaItem
  primaryImage : Option ImageRef
deriving DecidableEq, Repr

/-! ### JavaScript value helpers -/

/-- Truthiness of a JS string-or-null value: `null`, `undefined` and `""` are
falsy. -/
def jsTruthyStr : Option String → Bool
  | none => false
  | some s => s ≠ ""

/-- `a || b` on JS string-or-null values. -/
def jsOrStr (a b : Option String) : Option String :=
  if jsTruthyStr a then a else b

/-- Truthiness of a JS number-or-null value: `null`, `undefined` and `0` are
falsy. -/
def jsTruthyInt : Option Int → Bool
  | none => false
  | some t => t ≠ 0

/-! ### Date normalization (`fetchProjectsFromRemote`, date formatting block)

Source:
  let formattedDate = null;
  if (manifest.date) {
    const dateStr = manifest.date;
    let date;
    if (dateStr.includes(",")) { date = new Date(dateStr); }
    else { date = new Date(dateStr); }
    if (!isNaN(date.getTime())) {
      formattedDate = date.toISOString().split("T")[0];
    }
  }
  ... date: formattedDate || manifest.date
(The two branches of the `includes(",")` test run the same expression, so the
embedding parses once.) -/
def formatManifestDate (parse : String → Option Int) (iso : Int → String)
    (d : Option String) : Option String :=
  let formattedDate : Option String :=
    if jsTruthyStr d then
      match parse (d.getD "") with
      | some t => some (iso t)
      | none => none
    else none
  jsOrStr formattedDate d

/-! ### Candidate project folder extraction (`fetchProjectsFromRemote`)

The input is the list of `href` attribute values of the anchors appearing in
the origin root listing HTML, in document order.  The regex
`/<a href="([^"]+\/)">/g` matches an href exactly when it contains no quote
character, ends with `/`, and has at least one character before that final
slash (so its length is at least 2). -/
def hrefIsDirLink (h : String) : Bool :=
  (h.data.getLast? == some '/') && decide (2 ≤ h.data.length) &&
    h.data.all (fun c => c != '"')

/-- `s.replace("/", "")` with a string pattern replaces only the FIRST
occurrence of the pattern. -/
def jsReplaceFirstAux (c : Char) : List Char → List Char
  | [] => []
  | x :: xs => if x = c then xs else x :: jsReplaceFirstAux c xs

def jsReplaceFirst (c : Char) (s : String) : String :=
  String.mk (jsReplaceFirstAux c s.data)

/-- Body of the `while ((match = linkRegex.exec(html)) !== null)` loop:
`match[1].replace("/", "")` then the truthiness / `".."` / `"."` /
`"_template"` filter. -/
def candidateName (h : String) : Option String :=
  if hrefIsDirLink h then
    let folderName := jsReplaceFirst '/' h
    if folderName ≠ "" ∧ folderName ≠ ".." ∧ folderName ≠ "." ∧
        folderName ≠ "_template" then
      some folderName
    else none
  else none

def extractProjectFolders (hrefs : List String) : List String :=
  hrefs.filterMap candidateName

/-- Modelled from the spec claim wording (C7): the linked directory names
"with the trailing slash removed", then the same exclusions.  Compared with
`extractProjectFolders`, which embeds the source. -/
def specCandidateFolders (hrefs : List String) : List String :=
  hrefs.filterMap (fun h =>
    if hrefIsDirLink h then
      let nm := String.mk h.data.dropLast
      if nm ≠ "" ∧ nm ≠ ".." ∧ nm ≠ "." ∧ nm ≠ "_template" then some nm
      else none
    else none)

/-! ### Media classification (`fetchProjectsFromRemote`, media parsing block) -/

/-- Model of Node's `path.extname`: trailing `/` separators are ignored (so a
directory link such as `"sub.mp4/"` has extension `".mp4"`); the basename is
the part of the remainder after the last `/`; the extension runs from the
last `.` of the basename to its end, and is `""` when the basename has no
dot or its only leading character is the dot.  (Node additionally returns
`""` for the basename `".."`, where this model gives `"."`; neither is a
recognized media extension, so the two classify every listing
identically.) -/
def extname (f : String) : String :=
  let baseRev := (f.data.reverse.dropWhile (fun c => c == '/')).takeWhile
    (fun c => c != '/')
  let after := baseRev.takeWhile (fun c => c != '.')
  if after.length = baseRev.length then ""
  else if baseRev.length = after.length + 1 then ""
  else String.mk ('.' :: after.reverse)

/-- `path.extname(filename).toLowerCase()` (character-wise lowercasing). -/
def extLower (f : String) : String :=
  String.mk ((extname f).data.map Char.toLower)

def imageExts : List String := [".jpg", ".jpeg", ".png", ".gif"]

def videoExts : List String := [".mp4", ".mov", ".avi", ".webm"]

/-- The nine extensions of the `includes` test guarding `mediaFiles.push`. -/
def recognizedExts : List String :=
  [".jpg", ".jpeg", ".png", ".gif", ".mp4", ".mov", ".avi", ".webm", ".md"]

def isRecognizedMedia (f : String) : Bool :=
  decide (extLower f ∈ recognizedExts)

def isImageFile (f : String) : Bool :=
  decide (extLower f ∈ imageExts)

def isVideoFile (f : String) : Bool :=
  decide (extLower f ∈ videoExts)

/-- Classification of an (already lowercased) extension, as performed by the
if/else-if chain of the media processing loop. -/
def classifyByExt (e : String) : MediaType :=
  if e ∈ imageExts then .image
  else if e ∈ videoExts then .video
  else .notes

def baseUrl : String := "https://static.fcc.lol/portfolio-storage"

def mediaUrl (projectName filename : String) : String :=
  baseUrl ++ "/" ++ projectName ++ "/media/" ++ filename

/-- Case-sensitive lexicographic comparison of code-point sequences (the
comparatorless `Array.prototype.sort()` order on strings). -/
def lexLE : List Char → List Char → Bool
  | [], _ => true
  | _ :: _, [] => false
  | a :: as, b :: bs =>
    if a.toNat < b.toNat then true
    else if b.toNat < a.toNat then false
    else lexLE as bs

def strLE (a b : String) : Bool :=
  lexLE a.data b.data

/-- Lexicographic (case-sensitive) default `Array.prototype.sort()` on the
filename strings, realized as a stable insertion sort: ECMA-262 requires the
result of `sort` to be a stable, comparator-sorted permutation, which
determines it uniquely. -/
def sortStrings (l : List String) : List String :=
  List.insertionSort (fun a b => strLE a b = true) l

/-- One iteration of the `for (const filename of sortedMediaFiles)` loop.
`imageDims`/`videoDims` record the per-URL results of `getImageDimensions` /
`getVideoDimensions` (both return `null` on any failure); `mdContent` records
the markdown text served per URL, already `""` for failed fetches (both the
non-2xx path and the caught exception path leave `content` as `""`). -/
def mkMediaItem (imageDims videoDims : String → Option Dims)
    (mdContent : String → String) (projectName filename : String) :
    Option MediaItem :=
  let url := mediaUrl projectName filename
  if isImageFile filename then
    some ⟨url, .image, filename, imageDims url, none⟩
  else if isVideoFile filename then
    some ⟨url, .video, filename, videoDims url, none⟩
  else if extLower filename = ".md" then
    some ⟨url, .notes, filename, none, some (mdContent url)⟩
  else none

/-- The media parsing block: from the list of hrefs of the media directory
listing, build the `media` array and the `primaryImage`. -/
def buildMedia (imageDims videoDims : String → Option Dims)
    (mdContent : String → String) (projectName : String)
    (files : List String) : List MediaItem × Option ImageRef :=
  let mediaFiles := files.filter isRecognizedMedia
  let imageFiles := files.filter isImageFile
  let sortedMediaFiles := sortStrings mediaFiles
  let allMedia :=
    sortedMediaFiles.filterMap (mkMediaItem imageDims videoDims mdContent projectName)
  let primaryImage : Option ImageRef :=
    match sortStrings imageFiles with
    | [] => none
    | f :: _ => some ⟨mediaUrl projectName f, f, imageDims (mediaUrl projectName f)⟩
  (allMedia, primaryImage)

/-! ### The scraper (`fetchProjectsFromRemote`) -/

/-- The comparator passed to `.sort`:
  if (!a.date && !b.date) return 0;
  if (!a.date) return 1;
  if (!b.date) return -1;
  return new Date(b.date) - new Date(a.date);
When either date fails to parse, `new Date(b.date) - new Date(a.date)` is
`NaN`, which the engine's sort treats exactly like `0` (ECMA-262 SortCompare
results are only tested with `< 0` / `> 0`), so the embedding returns `0`
there. -/
def jsDateCompare (parse : String → Option Int) (a b : Project) : Int :=
  if !jsTruthyStr a.date && !jsTruthyStr b.date then 0
  else if !jsTruthyStr a.date then 1
  else if !jsTruthyStr b.date then -1
  else
    match parse (a.date.getD ""), parse (b.date.getD "") with
    | some x, some y => y - x
    | _, _ => 0

/-- `[...projects].sort(comparator)`: a stable sort of a copy of the input.
As for `sortStrings`, a consistent comparator determines the stable sorted
permutation uniquely, so insertion sort realizes it. -/
def sortProjectsByDate (parse : String → Option Int)
    (projects : List Project) : List Project :=
  List.insertionSort (fun a b => jsDateCompare parse a b ≤ 0) projects

/-- The sort key of a record: `none` for a falsy (`null`/missing/empty) date,
otherwise the parsed timestamp of the date string. -/
def dateKey (parse : String → Option Int) (p : Project) : Option Int :=
  if jsTruthyStr p.date then parse (p.date.getD "") else none

/-- Descending-by-date order on sort keys, dateless (`none`) keys last. -/
def keyLE : Option Int → Option Int → Prop
  | none, none => True
  | none, some _ => False
  | some _, none => True
  | some x, some y => y ≤ x

instance (a b : Option Int) : Decidable (keyLE a b) :=
  match a, b with
  | none, none => isTrue trivial
  | none, some _ => isFalse (fun h => h)
  | some _, none => isTrue trivial
  | some x, some y => inferInstanceAs (Decidable (y ≤ x))

/-- A record is well-keyed when its date is falsy or parses successfully
(`new Date` does not yield `NaN`). -/
def GoodDate (parse : String → Option Int) (p : Project) : Prop :=
  jsTruthyStr p.date = false ∨ (parse (p.date.getD "")).isSome = true

instance (parse : String → Option Int) (p : Project) :
    Decidable (GoodDate parse p) :=
  inferInstanceAs (Decidable (_ ∨ _))

/-! ### Derived-view filters

`String.toLower` (character-wise ASCII lowercasing) stands in for JS
`toLowerCase`; the two differ only on non-ASCII letters. -/

def filterProjectsByTag (projects : List Project) (tagName : String) :
    List Project :=
  projects.filter (fun p =>
    match p.tags with
    | some ts => ts.any (fun t => t != "" && t.toLower == tagName.toLower)
    | none => false)

def filterProjectsByPerson (projects : List Project) (personName : String) :
    List Project :=
  projects.filter (fun p =>
    match p.credits with
    | some cs => cs.any (fun c =>
        match c.name with
        | some n => n != "" && n.toLower == personName.toLower
        | none => false)
    | none => false)

/-! ### Cache store and staleness controller state -/

def CACHE_TTL : Int := 5 * 60 * 1000

/-- Contents of `projects-cache.json` (`cacheData`). -/
structure CacheData where
  projects : List Project
  lastUpdate : Int
deriving DecidableEq, Repr

/-- The module-level mutable state plus the persisted files.  `projectFiles`
models the `projects/` directory as an association list from file path to
decoded record; `fs.writeFileSync` prepends, and `List.lookup` returns the
most recent write of a path. -/
structure ServerState where
  projectsCache : Option (List Project)
  lastCacheUpdate : Option Int
  isUpdatingCache : Bool
  cacheFile : Option CacheData
  sortedFile : Option (List Project)
  projectFiles : List (String × Project)
  shareImageFiles : List String
deriving DecidableEq, Repr

/-- `isCacheStale`. -/
def isCacheStale (now : Int) (s : ServerState) : Bool :=
  if !jsTruthyInt s.lastCacheUpdate then true
  else decide (CACHE_TTL < now - s.lastCacheUpdate.getD 0)

/-- `path.join(PROJECTS_DIR, id + ".json")`. -/
def projectFileKey (id : String) : String :=
  "projects/" ++ id ++ ".json"

/-- `saveCacheToFile(projects)`: writes the metadata file, the sorted file,
and one file per record (`now` stands for the `Date.now()` taken inside). -/
def saveCacheToFile (parse : String → Option Int) (now : Int)
    (projects : List Project) (s : ServerState) : ServerState :=
  { s with
    cacheFile := some ⟨projects, now⟩
    sortedFile := some (sortProjectsByDate parse projects)
    projectFiles :=
      projects.foldl (fun fs p => (projectFileKey p.id, p) :: fs)
        s.projectFiles }

/-- `clearShareImageCache()`: unlinks every file of the share-image dir. -/
def clearShareImageCache (s : ServerState) : ServerState :=
  { s with shareImageFiles := [] }

/-- The synchronous prefix of `updateCacheInBackground` (everything before
the first `await`): the guard and the acquisition of `isUpdatingCache`.
Returns the new state and whether a scrape was launched.  Calls within the
same tick run this prefix back to back. -/
def updateCacheStart (now : Int) (s : ServerState) : ServerState × Bool :=
  if s.isUpdatingCache || !isCacheStale now s then (s, false)
  else ({ s with isUpdatingCache := true }, true)

/-- `n` back-to-back triggers of the background refresh in one tick; the
second component counts launched scrapes. -/
def triggerN (now : Int) : Nat → ServerState → ServerState × Nat
  | 0, s => (s, 0)
  | n + 1, s =>
    let first := updateCacheStart now s
    let rest := triggerN now n first.1
    (rest.1, (if first.2 then 1 else 0) + rest.2)

/-- A complete run of `updateCacheInBackground`: guard, scrape
(`scrapeResult`, `none` = `fetchProjectsFromRemote` threw), then either the
catch path or the success path (cache swap, `saveCacheToFile`,
`clearShareImageCache`), and the `finally` clearing of the flag.  `now` is
`Date.now()` at the staleness check, `now2` at the post-fetch updates. -/
def updateCacheInBackground (parse : String → Option Int) (now now2 : Int)
    (scrapeResult : Option (List Project)) (s : ServerState) : ServerState :=
  if s.isUpdatingCache || !isCacheStale now s then s
  else
    let s1 := { s with isUpdatingCache := true }
    match scrapeResult with
    | none => { s1 with isUpdatingCache := false }
    | some newProjects =>
      let s2 := { s1 with
        projectsCache := some newProjects
        lastCacheUpdate := some now2 }
      let s3 := saveCacheToFile parse now2 newProjects s2
      let s4 := clearShareImageCache s3
      { s4 with isUpdatingCache := false }

/-- `getProjects()` as a read-only view: the in-memory cache, with
`loadProjectsFromFile`'s fallback to the metadata file. -/
def getProjectsView (s : ServerState) : Option (List Project) :=
  match s.projectsCache with
  | some ps => some ps
  | none =>
    match s.cacheFile with
    | some cd => some cd.projects
    | none => none

/-- The read performed by `GET /projects/:projectId`: serve the per-id file
when it exists, otherwise scan the snapshot from `getProjects()`; `none` is
the 404 (the cold-start fetch-fresh branch is outside this claim's read). -/
def readById (s : ServerState) (projectId : String) : Option Project :=
  match List.lookup (projectFileKey projectId) s.projectFiles with
  | some p => some p
  | none =>
    match getProjectsView s with
    | some ps => ps.find? (fun p => p.id == projectId)
    | none => none

/-! ### Array identity model for the derived views

JS arrays are mutable references.  To state that the filters and the sort do
not mutate the shared `projectsCache` array, a small heap assigns contents to
references; each operation is embedded as a heap transformer returning the
reference it hands back to the caller. -/

structure Heap where
  arrays : Nat → List Project
  next : Nat

def Heap.alloc (h : Heap) (v : List Project) : Heap × Nat :=
  (⟨fun q => if q = h.next then v else h.arrays q, h.next + 1⟩, h.next)

/-- `sortProjectsByDate` on the heap: `[...projects]` allocates a copy, then
`.sort` mutates that fresh copy in place. -/
def sortProjectsByDateRef (parse : String → Option Int) (h : Heap)
    (r : Nat) : Heap × Nat :=
  let copy := h.alloc (h.arrays r)
  let h1 := copy.1
  let rNew := copy.2
  (⟨fun q => if q = rNew then sortProjectsByDate parse (h1.arrays rNew)
             else h1.arrays q,
    h1.next⟩, rNew)

/-- `filterProjectsByTag` on the heap: `.filter` allocates a fresh array. -/
def filterProjectsByTagRef (h : Heap) (r : Nat) (tagName : String) :
    Heap × Nat :=
  h.alloc (filterProjectsByTag (h.arrays r) tagName)

/-- `filterProjectsByPerson` on the heap. -/
def filterProjectsByPersonRef (h : Heap) (r : Nat) (personName : String) :
    Heap × Nat :=
  h.alloc (filterProjectsByPerson (h.arrays r) personName)

/-! ### Single-flight refresh (C1) -/

lemma updateCacheStart_of_updating {now : Int} {s : ServerState}
    (h : s.isUpdatingCache = true) : updateCacheStart now s = (s, false) := by
  simp [updateCacheStart, h]

lemma triggerN_of_updating {now : Int} {s : ServerState} (n : Nat)
    (h : s.isUpdatingCache = true) : triggerN now n s = (s, 0) := by
  induction n with
  | zero => rfl
  | succ n ih => simp [triggerN, updateCacheStart_of_updating h, ih]

/-- C1: while `isUpdatingCache` is true, any number of further triggers of
`updateCacheInBackground` within the same tick leave the state unchanged and
launch no scrape; from a non-refreshing stale state, any positive number of
back-to-back triggers launches exactly one scrape. -/
theorem updateCacheInBackground_single_flight (now : Int) (s : ServerState)
    (n : Nat) :
    (s.isUpdatingCache = true → triggerN now n s = (s, 0))
    ∧ (s.isUpdatingCache = false → isCacheStale now s = true →
        (triggerN now (n + 1) s).2 = 1) := by
  constructor
  · exact triggerN_of_updating n
  · intro h1 h2
    have hstart : updateCacheStart now s = ({ s with isUpdatingCache := true }, true) := by
      simp [updateCacheStart, h1, h2]
    have hrest : triggerN now n { s with isUpdatingCache := true } =
        ({ s with isUpdatingCache := true }, 0) :=
      triggerN_of_updating n rfl
    simp [triggerN, hstart, hrest]

def parseW : String → Option Int := fun _ => none

def stateW0 : ServerState := ⟨none, none, true, none, none, [], []⟩

def stateW1 : ServerState := ⟨none, none, false, none, none, [], []⟩

theorem updateCacheInBackground_single_flight_witness :
    triggerN 0 3 stateW0 = (stateW0, 0) ∧ (triggerN 0 3 stateW1).2 = 1 :=
  ⟨(updateCacheInBackground_single_flight 0 stateW0 3).1 rfl,
   (updateCacheInBackground_single_flight 0 stateW1 2).2 rfl rfl⟩

/-! ### Refresh-failure atomicity (C2) -/

/-- C2: when the scrape launched by a background refresh throws, the
completed `updateCacheInBackground` leaves the in-memory snapshot, the
timestamp, and every persisted encoding exactly as before, and clears
`isUpdatingCache`. -/
theorem updateCacheInBackground_failure_atomic (parse : String → Option Int)
    (now now2 : Int) (s : ServerState)
    (h1 : s.isUpdatingCache = false) (h2 : isCacheStale now s = true) :
    (updateCacheInBackground parse now now2 none s).projectsCache = s.projectsCache
    ∧ (updateCacheInBackground parse now now2 none s).lastCacheUpdate = s.lastCacheUpdate
    ∧ (updateCacheInBackground parse now now2 none s).cacheFile = s.cacheFile
    ∧ (updateCacheInBackground parse now now2 none s).sortedFile = s.sortedFile
    ∧ (updateCacheInBackground parse now now2 none s).projectFiles = s.projectFiles
    ∧ (updateCacheInBackground parse now now2 none s).shareImageFiles = s.shareImageFiles
    ∧ (updateCacheInBackground parse now now2 none s).isUpdatingCache = false := by
  simp [updateCacheInBackground, h1, h2]

theorem updateCacheInBackground_failure_atomic_witness :
    (updateCacheInBackground parseW 0 1 none stateW1).projectsCache = stateW1.projectsCache
    ∧ (updateCacheInBackground parseW 0 1 none stateW1).lastCacheUpdate = stateW1.lastCacheUpdate
    ∧ (updateCacheInBackground parseW 0 1 none stateW1).cacheFile = stateW1.cacheFile
    ∧ (updateCacheInBackground parseW 0 1 none stateW1).sortedFile = stateW1.sortedFile
    ∧ (updateCacheInBackground parseW 0 1 none stateW1).projectFiles = stateW1.projectFiles
    ∧ (updateCacheInBackground parseW 0 1 none stateW1).shareImageFiles = stateW1.shareImageFiles
    ∧ (updateCacheInBackground parseW 0 1 none stateW1).isUpdatingCache = false :=
  updateCacheInBackground_failure_atomic parseW 0 1 stateW1 rfl rfl

/-! ### Derived views do not mutate the snapshot (C10) -/

/-- C10: on the array heap, `sortProjectsByDate`, `filterProjectsByTag` and
`filterProjectsByPerson` leave the input array's contents untouched and hand
back a fresh reference (distinct from the input's) holding the derived
list. -/
theorem derived_views_preserve_input (parse : String → Option Int) (h : Heap)
    (r : Nat) (tagName personName : String) (hr : r < h.next) :
    ((sortProjectsByDateRef parse h r).1.arrays r = h.arrays r
      ∧ (sortProjectsByDateRef parse h r).2 ≠ r
      ∧ (sortProjectsByDateRef parse h r).1.arrays (sortProjectsByDateRef parse h r).2
          = sortProjectsByDate parse (h.arrays r))
    ∧ ((filterProjectsByTagRef h r tagName).1.arrays r = h.arrays r
      ∧ (filterProjectsByTagRef h r tagName).2 ≠ r
      ∧ (filterProjectsByTagRef h r tagName).1.arrays (filterProjectsByTagRef h r tagName).2
          = filterProjectsByTag (h.arrays r) tagName)
    ∧ ((filterProjectsByPersonRef h r personName).1.arrays r = h.arrays r
      ∧ (filterProjectsByPersonRef h r personName).2 ≠ r
      ∧ (filterProjectsByPersonRef h r personName).1.arrays (filterProjectsByPersonRef h r personName).2
          = filterProjectsByPerson (h.arrays r) personName) := by
  have hne : r ≠ h.next := Nat.ne_of_lt hr
  refine ⟨⟨?_, ?_, ?_⟩, ⟨?_, ?_, ?_⟩, ⟨?_, ?_, ?_⟩⟩ <;>
    simp [sortProjectsByDateRef, filterProjectsByTagRef,
      filterProjectsByPersonRef, Heap.alloc, hne, Ne.symm hne]

def projW : Project := ⟨"a", some "2024-01-02", none, none, [], none⟩

def heapW : Heap := ⟨fun q => if q = 0 then [projW] else [], 1⟩

theorem derived_views_preserve_input_witness :
    (sortProjectsByDateRef parseW heapW 0).1.arrays 0 = heapW.arrays 0
    ∧ (filterProjectsByTagRef heapW 0 "t").1.arrays 0 = heapW.arrays 0
    ∧ (filterProjectsByPersonRef heapW 0 "p").1.arrays 0 = heapW.arrays 0 :=
  ⟨(derived_views_preserve_input parseW heapW 0 "t" "p" (by decide)).1.1,
   (derived_views_preserve_input parseW heapW 0 "t" "p" (by decide)).2.1.1,
   (derived_views_preserve_input parseW heapW 0 "t" "p" (by decide)).2.2.1⟩

/-! ### Date normalization (C4) -/

/-- C4: the produced date is the `YYYY-MM-DD` rendering when the manifest
date parses, the original string when parsing fails, and null when the
manifest has no date; the computation is total (a Lean function), so it never
drops the record or raises.  `hiso` records that `toISOString().split("T")[0]`
is never empty, `hempty` that `new Date("")` is Invalid Date. -/
theorem formatManifestDate_spec (parse : String → Option Int)
    (iso : Int → String) (hiso : ∀ t, iso t ≠ "")
    (hempty : parse "" = none) (d : Option String) :
    (d = none → formatManifestDate parse iso d = none)
    ∧ (∀ s t, d = some s → parse s = some t →
        formatManifestDate parse iso d = some (iso t))
    ∧ (∀ s, d = some s → parse s = none →
        formatManifestDate parse iso d = some s) := by
  refine ⟨?_, ?_, ?_⟩
  · rintro rfl
    rfl
  · rintro s t rfl hp
    by_cases hs : s = ""
    · subst hs
      rw [hempty] at hp
      cases hp
    · simp [formatManifestDate, jsTruthyStr, hs, hp, jsOrStr, hiso t]
  · rintro s rfl hp
    by_cases hs : s = ""
    · subst hs
      simp [formatManifestDate, jsTruthyStr, jsOrStr]
    · simp [formatManifestDate, jsTruthyStr, hs, hp, jsOrStr]

def parseC : String → Option Int :=
  fun s => if s = "May 1, 2020" then some 100 else none

def isoC : Int → String := fun _ => "2020-05-01"

lemma isoC_ne (t : Int) : isoC t ≠ "" :=
  show ("2020-05-01" : String) ≠ "" by decide

theorem formatManifestDate_spec_witness :
    formatManifestDate parseC isoC (some "May 1, 2020") = some "2020-05-01"
    ∧ formatManifestDate parseC isoC (some "bogus") = some "bogus"
    ∧ formatManifestDate parseC isoC none = none :=
  ⟨(formatManifestDate_spec parseC isoC isoC_ne (by decide)
      (some "May 1, 2020")).2.1 "May 1, 2020" 100 rfl (by decide),
   (formatManifestDate_spec parseC isoC isoC_ne (by decide)
      (some "bogus")).2.2 "bogus" rfl (by decide),
   (formatManifestDate_spec parseC isoC isoC_ne (by decide)
      none).1 rfl⟩

/-! ### Candidate-folder selection (C7)

The claim says the trailing slash is removed from each directory href.  The
source runs `match[1].replace("/", "")`, and `String.prototype.replace` with
a string pattern replaces only the first occurrence, which is the trailing
slash only when the href contains a single slash.  The href `"a/b/"` (matched
by `/<a href="([^"]+\/)">/`) separates the two readings. -/

theorem extractProjectFolders_trailing_cex :
    extractProjectFolders ["a/b/"] ≠ specCandidateFolders ["a/b/"]
    ∧ extractProjectFolders ["a/b/"] = ["ab/"]
    ∧ specCandidateFolders ["a/b/"] = ["a/b"] := by
  refine ⟨?_, ?_, ?_⟩ <;> decide

lemma candidateName_eq (a : String) :
    candidateName a =
      if hrefIsDirLink a then
        (if (jsReplaceFirst '/' a != "" && jsReplaceFirst '/' a != ".." &&
             jsReplaceFirst '/' a != "." && jsReplaceFirst '/' a != "_template")
         then some (jsReplaceFirst '/' a) else none)
      else none := by
  by_cases hp : hrefIsDirLink a
  · by_cases hb : (jsReplaceFirst '/' a != "" && jsReplaceFirst '/' a != ".." &&
        jsReplaceFirst '/' a != "." && jsReplaceFirst '/' a != "_template") = true
    · have hP : jsReplaceFirst '/' a ≠ "" ∧ jsReplaceFirst '/' a ≠ ".." ∧
          jsReplaceFirst '/' a ≠ "." ∧ jsReplaceFirst '/' a ≠ "_template" := by
        simp only [Bool.and_eq_true, bne_iff_ne] at hb
        tauto
      simp [candidateName, hp, hb, hP]
    · have hP : ¬(jsReplaceFirst '/' a ≠ "" ∧ jsReplaceFirst '/' a ≠ ".." ∧
          jsReplaceFirst '/' a ≠ "." ∧ jsReplaceFirst '/' a ≠ "_template") := by
        simp only [Bool.and_eq_true, bne_iff_ne] at hb
        tauto
      simp [candidateName, hp, hb, hP]
  · simp [candidateName, hp]

/-- C7 (amended): the candidate set is exactly the matched directory hrefs
with the FIRST slash occurrence removed (for an ordinary listing entry
`name/` this is the trailing slash), minus `""`, `".."`, `"."` and
`"_template"`; in particular the listing `["a/", "b/", "_template/", "../"]`
yields exactly `["a", "b"]`. -/
theorem extractProjectFolders_amended :
    (∀ hrefs : List String,
      extractProjectFolders hrefs =
        ((hrefs.filter hrefIsDirLink).map (jsReplaceFirst '/')).filter
          (fun n => n != "" && n != ".." && n != "." && n != "_template"))
    ∧ extractProjectFolders ["a/", "b/", "_template/", "../"] = ["a", "b"] := by
  constructor
  · intro hrefs
    induction hrefs with
    | nil => rfl
    | cons a t ih =>
      have ih' : List.filterMap candidateName t =
          ((t.filter hrefIsDirLink).map (jsReplaceFirst '/')).filter
            (fun n => n != "" && n != ".." && n != "." && n != "_template") := ih
      by_cases hp : hrefIsDirLink a
      · by_cases hb : (jsReplaceFirst '/' a != "" && jsReplaceFirst '/' a != ".." &&
            jsReplaceFirst '/' a != "." && jsReplaceFirst '/' a != "_template") = true
        · simp [extractProjectFolders, List.filterMap_cons, candidateName_eq,
            hp, hb, List.filter_cons, ih']
        · simp only [Bool.not_eq_true] at hb
          simp [extractProjectFolders, List.filterMap_cons, candidateName_eq,
            hp, hb, List.filter_cons, ih']
      · simp [extractProjectFolders, List.filterMap_cons, candidateName_eq,
          hp, List.filter_cons, ih']
  · decide

/-! ### Cache store: per-id files (C8, C9) -/

lemma projectFileKey_inj {a b : String} (h : projectFileKey a = projectFileKey b) :
    a = b := by
  have hd := congrArg String.data h
  simp only [projectFileKey, String.data_append, List.append_assoc] at hd
  have hd2 := List.append_cancel_left hd
  have hd3 := List.append_cancel_right hd2
  exact String.ext hd3

lemma lookup_writeFold_skip (k : String) (ps : List Project) :
    ∀ fs : List (String × Project),
    (∀ p ∈ ps, projectFileKey p.id ≠ k) →
    List.lookup k (ps.foldl (fun a p => (projectFileKey p.id, p) :: a) fs)
      = List.lookup k fs := by
  induction ps with
  | nil => intro fs _; rfl
  | cons p t ih =>
    intro fs hp
    have h1 : (k == projectFileKey p.id) = false :=
      beq_eq_false_iff_ne.mpr (Ne.symm (hp p (List.mem_cons_self p t)))
    rw [List.foldl_cons, ih _ (fun q hq => hp q (List.mem_cons_of_mem p hq))]
    simp [List.lookup, h1]

lemma lookup_writeFold_mem (ps : List Project) :
    ∀ (fs : List (String × Project)) (r : Project), r ∈ ps →
    (ps.map Project.id).Nodup →
    List.lookup (projectFileKey r.id)
      (ps.foldl (fun a p => (projectFileKey p.id, p) :: a) fs) = some r := by
  induction ps with
  | nil => intro fs r hr; cases hr
  | cons p t ih =>
    intro fs r hr hnd
    have hnd' : (p.id :: t.map Project.id).Nodup := by simpa using hnd
    rw [List.foldl_cons]
    rcases List.mem_cons.mp hr with h | h
    · subst h
      have hne : ∀ q ∈ t, projectFileKey q.id ≠ projectFileKey r.id := by
        intro q hq heq
        exact (List.nodup_cons.mp hnd').1
          (List.mem_map.mpr ⟨q, hq, projectFileKey_inj heq⟩)
      rw [lookup_writeFold_skip _ t _ hne]
      simp [List.lookup]
    · exact ih _ r h (List.nodup_cons.mp hnd').2

/-- C8: after `saveCacheToFile(records)` succeeds, the per-id file lookup of
`GET /projects/:projectId` returns, for every written record's id, exactly
that record. -/
theorem saveCache_readById_roundtrip (parse : String → Option Int) (now : Int)
    (projects : List Project) (s : ServerState)
    (hids : (projects.map Project.id).Nodup) :
    ∀ r ∈ projects,
      readById (saveCacheToFile parse now projects s) r.id = some r := by
  intro r hr
  have hl : List.lookup (projectFileKey r.id)
      (saveCacheToFile parse now projects s).projectFiles = some r :=
    lookup_writeFold_mem projects s.projectFiles r hr hids
  simp [readById, hl]

def projA : Project := ⟨"a", none, none, none, [], none⟩

def projB : Project := ⟨"b", some "2020-01-01", none, none, [], none⟩

theorem saveCache_readById_roundtrip_witness :
    readById (saveCacheToFile parseW 5 [projA, projB] stateW1) "a" = some projA :=
  saveCache_readById_roundtrip parseW 5 [projA, projB] stateW1 (by decide)
    projA (by decide)

/-- C9: `saveCacheToFile` never deletes a per-id file: a file whose id is not
among the new records keeps its old contents. -/
theorem saveCache_stale_files_persist (parse : String → Option Int)
    (now : Int) (projects : List Project) (s : ServerState)
    (oldId : String) (c : Project)
    (hnot : oldId ∉ projects.map Project.id)
    (hpresent : List.lookup (projectFileKey oldId) s.projectFiles = some c) :
    List.lookup (projectFileKey oldId)
      (saveCacheToFile parse now projects s).projectFiles = some c := by
  have hkeys : ∀ p ∈ projects, projectFileKey p.id ≠ projectFileKey oldId := by
    intro p hp heq
    exact hnot (List.mem_map.mpr ⟨p, hp, projectFileKey_inj heq⟩)
  calc List.lookup (projectFileKey oldId)
        (saveCacheToFile parse now projects s).projectFiles
      = List.lookup (projectFileKey oldId) s.projectFiles :=
        lookup_writeFold_skip _ projects s.projectFiles hkeys
    _ = some c := hpresent

def projOld : Project := ⟨"old", none, none, none, [], none⟩

def stateW2 : ServerState :=
  ⟨none, none, false, none, none, [(projectFileKey "old", projOld)], []⟩

theorem saveCache_stale_files_persist_witness :
    List.lookup (projectFileKey "old")
      (saveCacheToFile parseW 5 [projA] stateW2).projectFiles = some projOld :=
  saveCache_stale_files_persist parseW 5 [projA] stateW2 "old" projOld
    (by decide) (by decide)

/-! ### Per-project failure isolation (C3) -/

def dimsW : String → Option Dims := fun _ => none

def mdW : String → String := fun _ => ""

lemma lexLE_total : ∀ as bs : List Char, lexLE as bs = true ∨ lexLE bs as = true := by
  intro as
  induction as with
  | nil => intro bs; left; rfl
  | cons a as ih =>
    intro bs
    cases bs with
    | nil => right; rfl
    | cons b bs =>
      by_cases h1 : a.toNat < b.toNat
      · left; simp [lexLE, h1]
      · by_cases h2 : b.toNat < a.toNat
        · right; simp [lexLE, h2]
        · rcases ih bs with h | h
          · left; simp [lexLE, h1, h2, h]
          · right; simp [lexLE, h1, h2, h]

lemma lexLE_trans : ∀ as bs cs : List Char,
    lexLE as bs = true → lexLE bs cs = true → lexLE as cs = true := by
  intro as
  induction as with
  | nil => intro bs cs _ _; rfl
  | cons a as ih =>
    intro bs cs hab hbc
    cases bs with
    | nil => simp [lexLE] at hab
    | cons b bs =>
      cases cs with
      | nil => simp [lexLE] at hbc
      | cons c cs =>
        simp only [lexLE] at hab hbc ⊢
        by_cases h1 : a.toNat < b.toNat
        · by_cases h2 : b.toNat < c.toNat
          · simp [show a.toNat < c.toNat by omega]
          · simp only [h2, if_false, if_neg] at hbc
            by_cases h3 : c.toNat < b.toNat
            · simp [h3] at hbc
            · simp [show a.toNat < c.toNat by omega]
        · by_cases h2 : b.toNat < a.toNat
          · simp [h1, h2] at hab
          · simp only [h1, h2, if_false, if_neg] at hab
            by_cases h3 : b.toNat < c.toNat
            · simp [show a.toNat < c.toNat by omega]
            · by_cases h4 : c.toNat < b.toNat
              · simp [h3, h4] at hbc
              · simp only [h3, h4, if_false, if_neg] at hbc
                have h5 : ¬ a.toNat < c.toNat := by omega
                have h6 : ¬ c.toNat < a.toNat := by omega
                simp [h5, h6, ih bs cs hab hbc]

instance : IsTotal String (fun a b => strLE a b = true) :=
  ⟨fun a b => lexLE_total a.data b.data⟩

instance : IsTrans String (fun a b => strLE a b = true) :=
  ⟨fun a b c => lexLE_trans a.data b.data c.data⟩

lemma recognized_cases {f : String} (hf : isRecognizedMedia f = true)
    (h1 : isImageFile f = false) (h2 : isVideoFile f = false) :
    extLower f = ".md" := by
  simp only [isRecognizedMedia, recognizedExts, decide_eq_true_eq] at hf
  simp only [isImageFile, imageExts, decide_eq_false_iff_not] at h1
  simp only [isVideoFile, videoExts, decide_eq_false_iff_not] at h2
  simp only [List.mem_cons, List.mem_singleton, List.not_mem_nil] at hf h1 h2
  tauto

lemma mkMediaItem_recognized (d v : String → Option Dims) (c : String → String)
    (n f : String) (hf : isRecognizedMedia f = true) :
    ∃ it, mkMediaItem d v c n f = some it ∧ it.filename = f ∧
      it.type = classifyByExt (extLower f) := by
  by_cases h1 : isImageFile f
  · refine ⟨⟨mediaUrl n f, .image, f, d (mediaUrl n f), none⟩, ?_, rfl, ?_⟩
    · simp [mkMediaItem, h1]
    · have : extLower f ∈ imageExts := of_decide_eq_true h1
      simp [classifyByExt, this]
  · by_cases h2 : isVideoFile f
    · refine ⟨⟨mediaUrl n f, .video, f, v (mediaUrl n f), none⟩, ?_, rfl, ?_⟩
      · simp [mkMediaItem, h1, h2]
      · have hv : extLower f ∈ videoExts := of_decide_eq_true h2
        have hi : extLower f ∉ imageExts := by
          intro hmem
          exact h1 (decide_eq_true hmem)
        simp [classifyByExt, hv, hi]
    · have hmd : extLower f = ".md" :=
        recognized_cases hf (by simpa using h1) (by simpa using h2)
      refine ⟨⟨mediaUrl n f, .notes, f, none, some (c (mediaUrl n f))⟩, ?_, rfl, ?_⟩
      · simp [mkMediaItem, h1, h2, hmd]
      · have hi : extLower f ∉ imageExts := by
          intro hmem
          exact h1 (decide_eq_true hmem)
        have hv : extLower f ∉ videoExts := by
          intro hmem
          exact h2 (decide_eq_true hmem)
        simp [classifyByExt, hi, hv]

lemma filterMap_mkMediaItem (d v : String → Option Dims) (c : String → String)
    (n : String) (l : List String)
    (hall : ∀ f ∈ l, isRecognizedMedia f = true) :
    ((l.filterMap (mkMediaItem d v c n)).map MediaItem.filename = l)
    ∧ (∀ it ∈ l.filterMap (mkMediaItem d v c n),
        it.type = classifyByExt (extLower it.filename)) := by
  induction l with
  | nil => exact ⟨rfl, fun it h => absurd h (List.not_mem_nil it)⟩
  | cons f t ih =>
    obtain ⟨it, hit, hfn, hty⟩ :=
      mkMediaItem_recognized d v c n f (hall f (List.mem_cons_self f t))
    obtain ⟨ihm, iht⟩ := ih (fun g hg => hall g (List.mem_cons_of_mem f hg))
    constructor
    · simp [List.filterMap_cons, hit, hfn, ihm]
    · intro jt hjt
      rw [List.filterMap_cons, hit] at hjt
      rcases List.mem_cons.mp hjt with h | h
      · subst h
        rw [hfn]
        exact hty
      · exact iht jt h

/-- C6: the media list holds exactly the listed files with a recognized
extension (case-insensitively `.jpg/.jpeg/.png/.gif/.mp4/.mov/.avi/.webm/.md`);
each item's type is a pure function of its extension, and items are ordered
by case-sensitive lexicographic filename sort, independent of type. -/
theorem buildMedia_spec (imageDims videoDims : String → Option Dims)
    (mdContent : String → String) (projectName : String)
    (files : List String) :
    (((buildMedia imageDims videoDims mdContent projectName files).1.map
        MediaItem.filename).Perm (files.filter isRecognizedMedia))
    ∧ ((buildMedia imageDims videoDims mdContent projectName files).1.map
        MediaItem.filename).Pairwise (fun a b : String => strLE a b = true)
    ∧ ∀ it ∈ (buildMedia imageDims videoDims mdContent projectName files).1,
        it.type = classifyByExt (extLower it.filename) := by
  have hall : ∀ f ∈ sortStrings (files.filter isRecognizedMedia),
      isRecognizedMedia f = true := by
    intro f hf
    have : f ∈ files.filter isRecognizedMedia :=
      (List.mem_insertionSort _).mp hf
    exact (List.mem_filter.mp this).2
  obtain ⟨hmap, hty⟩ := filterMap_mkMediaItem imageDims videoDims mdContent
    projectName (sortStrings (files.filter isRecognizedMedia)) hall
  refine ⟨?_, ?_, ?_⟩
  · show ((sortStrings (files.filter isRecognizedMedia)).filterMap
        (mkMediaItem imageDims videoDims mdContent projectName)).map
        MediaItem.filename |>.Perm (files.filter isRecognizedMedia)
    rw [hmap]
    exact List.perm_insertionSort _ _
  · show ((sortStrings (files.filter isRecognizedMedia)).filterMap
        (mkMediaItem imageDims videoDims mdContent projectName)).map
        MediaItem.filename |>.Pairwise (fun a b : String => strLE a b = true)
    rw [hmap]
    exact List.sorted_insertionSort _ _
  · exact hty

def itemW : MediaItem := ⟨mediaUrl "p" "a.md", .notes, "a.md", none, some ""⟩

theorem buildMedia_spec_witness :
    (((buildMedia dimsW dimsW mdW "p" ["b.JPG", "a.md", "zz.txt", "c.mp4"]).1.map
        MediaItem.filename).Perm
      (["b.JPG", "a.md", "zz.txt", "c.mp4"].filter isRecognizedMedia))
    ∧ itemW.type = classifyByExt (extLower itemW.filename) :=
  ⟨(buildMedia_spec dimsW dimsW mdW "p" ["b.JPG", "a.md", "zz.txt", "c.mp4"]).1,
   (buildMedia_spec dimsW dimsW mdW "p" ["b.JPG", "a.md", "zz.txt", "c.mp4"]).2.2
      itemW (by decide)⟩

/-! ### Date sort: descending, dateless last, stable (C5) -/

lemma keyLE_refl (k : Option Int) : keyLE k k := by
  cases k with
  | none => trivial
  | some x => show x ≤ x; exact le_refl x

lemma keyLE_total (k1 k2 : Option Int) : keyLE k1 k2 ∨ keyLE k2 k1 := by
  cases k1 with
  | none =>
    cases k2 with
    | none => exact Or.inl trivial
    | some y => exact Or.inr trivial
  | some x =>
    cases k2 with
    | none => exact Or.inl trivial
    | some y => show y ≤ x ∨ x ≤ y; omega

lemma keyLE_trans {k1 k2 k3 : Option Int} (h1 : keyLE k1 k2)
    (h2 : keyLE k2 k3) : keyLE k1 k3 := by
  cases k1 with
  | none =>
    cases k2 with
    | none => exact h2
    | some y => exact False.elim h1
  | some x =>
    cases k3 with
    | none => trivial
    | some z =>
      cases k2 with
      | none => exact False.elim h2
      | some y =>
        have hyx : y ≤ x := h1
        have hzy : z ≤ y := h2
        show z ≤ x
        omega

lemma jsDateCompare_le_iff (parse : String → Option Int) {a b : Project}
    (ha : GoodDate parse a) (hb : GoodDate parse b) :
    (jsDateCompare parse a b ≤ 0) ↔
      keyLE (dateKey parse a) (dateKey parse b) := by
  cases hta : jsTruthyStr a.date <;> cases htb : jsTruthyStr b.date
  · simp [jsDateCompare, dateKey, hta, htb, keyLE]
  · rcases hb with hb | hb
    · rw [htb] at hb; cases hb
    · obtain ⟨t, ht⟩ := Option.isSome_iff_exists.mp hb
      simp [jsDateCompare, dateKey, hta, htb, ht, keyLE]
  · rcases ha with ha | ha
    · rw [hta] at ha; cases ha
    · obtain ⟨t, ht⟩ := Option.isSome_iff_exists.mp ha
      simp [jsDateCompare, dateKey, hta, htb, ht, keyLE]
  · rcases ha with ha | ha
    · rw [hta] at ha; cases ha
    · rcases hb with hb | hb
      · rw [htb] at hb; cases hb
      · obtain ⟨x, hx⟩ := Option.isSome_iff_exists.mp ha
        obtain ⟨y, hy⟩ := Option.isSome_iff_exists.mp hb
        rw [show jsDateCompare parse a b = y - x from by
              simp [jsDateCompare, hta, htb, hx, hy],
            show dateKey parse a = some x from by simp [dateKey, hta, hx],
            show dateKey parse b = some y from by simp [dateKey, htb, hy]]
        show y - x ≤ 0 ↔ y ≤ x
        omega

lemma pairwise_orderedInsert_key (parse : String → Option Int) (a : Project)
    (l : List Project) (ha : GoodDate parse a)
    (hl : ∀ p ∈ l, GoodDate parse p)
    (hp : l.Pairwise (fun x y => keyLE (dateKey parse x) (dateKey parse y))) :
    (List.orderedInsert (fun x y => jsDateCompare parse x y ≤ 0) a l).Pairwise
      (fun x y => keyLE (dateKey parse x) (dateKey parse y)) := by
  induction l with
  | nil => simp
  | cons b t ih =>
    have hgb : GoodDate parse b := hl b (List.mem_cons_self b t)
    obtain ⟨hb_all, hpt⟩ := List.pairwise_cons.mp hp
    rw [List.orderedInsert]
    by_cases hab : jsDateCompare parse a b ≤ 0
    · rw [if_pos hab]
      have hkab : keyLE (dateKey parse a) (dateKey parse b) :=
        (jsDateCompare_le_iff parse ha hgb).mp hab
      refine List.pairwise_cons.mpr ⟨?_, hp⟩
      intro x hx
      rcases List.mem_cons.mp hx with h | h
      · subst h; exact hkab
      · exact keyLE_trans hkab (hb_all x h)
    · rw [if_neg hab]
      have hnk : ¬ keyLE (dateKey parse a) (dateKey parse b) := fun hk =>
        hab ((jsDateCompare_le_iff parse ha hgb).mpr hk)
      have hkba : keyLE (dateKey parse b) (dateKey parse a) :=
        (keyLE_total _ _).resolve_left hnk
      refine List.pairwise_cons.mpr ⟨?_, ih (fun q hq => hl q (List.mem_cons_of_mem b hq)) hpt⟩
      intro x hx
      rcases (List.mem_orderedInsert _).mp hx with h | h
      · subst h; exact hkba
      · exact hb_all x h

lemma pairwise_sortProjectsByDate (parse : String → Option Int)
    (l : List Project) (h : ∀ p ∈ l, GoodDate parse p) :
    (sortProjectsByDate parse l).Pairwise
      (fun x y => keyLE (dateKey parse x) (dateKey parse y)) := by
  induction l with
  | nil => simp [sortProjectsByDate]
  | cons a t ih =>
    have hgs : ∀ p ∈ sortProjectsByDate parse t, GoodDate parse p := by
      intro p hp
      exact h p (List.mem_cons_of_mem a ((List.mem_insertionSort _).mp hp))
    exact pairwise_orderedInsert_key parse a (sortProjectsByDate parse t)
      (h a (List.mem_cons_self a t)) hgs
      (ih (fun q hq => h q (List.mem_cons_of_mem a hq)))

lemma pairwise_cmp_of_const_key (parse : String → Option Int) (v : Option Int)
    (m : List Project) (hm : ∀ x ∈ m, GoodDate parse x ∧ dateKey parse x = v) :
    m.Pairwise (fun x y => jsDateCompare parse x y ≤ 0) := by
  induction m with
  | nil => exact List.Pairwise.nil
  | cons x t ih =>
    obtain ⟨hgx, hkx⟩ := hm x (List.mem_cons_self x t)
    refine List.pairwise_cons.mpr ⟨?_, ih (fun q hq => hm q (List.mem_cons_of_mem x hq))⟩
    intro y hy
    obtain ⟨hgy, hky⟩ := hm y (List.mem_cons_of_mem x hy)
    refine (jsDateCompare_le_iff parse hgx hgy).mpr ?_
    rw [hkx, hky]
    exact keyLE_refl v

/-- C5: when every record's date is null/empty or parseable,
`sortProjectsByDate` returns a permutation of its input that is sorted
descending by date with all dateless records after all dated ones, and it is
stable: for every key (equal dates, and in particular the dateless records),
the records with that key appear in their input order. -/
theorem sortProjectsByDate_spec (parse : String → Option Int)
    (l : List Project) (h : ∀ p ∈ l, GoodDate parse p) :
    (sortProjectsByDate parse l).Perm l
    ∧ (sortProjectsByDate parse l).Pairwise
        (fun x y => keyLE (dateKey parse x) (dateKey parse y))
    ∧ ∀ v : Option Int,
        (sortProjectsByDate parse l).filter
            (fun x => decide (dateKey parse x = v))
          = l.filter (fun x => decide (dateKey parse x = v)) := by
  refine ⟨List.perm_insertionSort _ _, pairwise_sortProjectsByDate parse l h, ?_⟩
  intro v
  have hpair : (l.filter (fun x => decide (dateKey parse x = v))).Pairwise
      (fun x y => jsDateCompare parse x y ≤ 0) := by
    refine pairwise_cmp_of_const_key parse v _ ?_
    intro x hx
    obtain ⟨hxl, hxp⟩ := List.mem_filter.mp hx
    exact ⟨h x hxl, of_decide_eq_true hxp⟩
  have hsub : List.Sublist (l.filter (fun x => decide (dateKey parse x = v)))
      (sortProjectsByDate parse l) :=
    List.sublist_insertionSort hpair (List.filter_sublist l)
  have hfe : (l.filter (fun x => decide (dateKey parse x = v))).filter
      (fun x => decide (dateKey parse x = v))
      = l.filter (fun x => decide (dateKey parse x = v)) := by
    refine List.filter_eq_self.mpr ?_
    intro a ha
    exact (List.mem_filter.mp ha).2
  have hsub2 : List.Sublist (l.filter (fun x => decide (dateKey parse x = v)))
      ((sortProjectsByDate parse l).filter (fun x => decide (dateKey parse x = v))) :=
    hfe ▸ hsub.filter (fun x => decide (dateKey parse x = v))
  have hperm : ((sortProjectsByDate parse l).filter
      (fun x => decide (dateKey parse x = v))).Perm
      (l.filter (fun x => decide (dateKey parse x = v))) :=
    (List.perm_insertionSort _ l).filter _
  exact (hsub2.eq_of_length hperm.length_eq.symm).symm

def parse5 : String → Option Int :=
  fun s => if s = "2020-01-01" then some 100
    else if s = "2021-01-01" then some 200 else none

def projN : Project := ⟨"n", none, none, none, [], none⟩

def projO : Project := ⟨"o", some "2020-01-01", none, none, [], none⟩

def projT : Project := ⟨"t", some "2021-01-01", none, none, [], none⟩

theorem sortProjectsByDate_spec_witness :
    (sortProjectsByDate parse5 [projN, projT, projO]).Perm [projN, projT, projO]
    ∧ (sortProjectsByDate parse5 [projN, projT, projO]).Pairwise
        (fun x y => keyLE (dateKey parse5 x) (dateKey parse5 y))
    ∧ (sortProjectsByDate parse5 [projN, projT, projO]).filter
        (fun x => decide (dateKey parse5 x = none))
      = [projN, projT, projO].filter (fun x => decide (dateKey parse5 x = none)) :=
  ⟨(sortProjectsByDate_spec parse5 [projN, projT, projO] (by decide)).1,
   (sortProjectsByDate_spec parse5 [projN, projT, projO] (by decide)).2.1,
   (sortProjectsByDate_spec parse5 [projN, projT, projO] (by decide)).2.2 none⟩

end Portfolio
